import Mathlib

/-!
Shallow embedding of `src/singlesorter.py` and `src/to_sheets.py`
(repository `mkwant/list_to_sheets`).

Conventions used throughout:

* A pandas cell value is modelled by `Val`: a string, an integer, or the
  missing value `NaN`.  Python/pandas equality on cells (`!=` in the source)
  is modelled by `pyEq`/`pyNe`; `NaN` compares unequal to everything,
  including itself, exactly as float NaN does in Python.
* A `DataFrame` is modelled by `Table`: a list of column names plus rows of
  positionally aligned values.
* Fallible steps (KeyError, ValueError, IndexError, parse errors) are
  modelled with `Except String` / `Option`.
* `df.sort_values(by=['SORT_INDEX', 'SORT_CTY'])` sorts on several columns,
  for which pandas uses `numpy.lexsort`, a stable sort; it is modelled by a
  stable insertion sort on the key extended with the original row position.
* External I/O (HTTP download, Google Drive upload, file deletion) is
  modelled by an explicit event trace plus a boolean for the existence of
  the local staging file; the success of the download and upload collaborators
  is a parameter of the run.
-/

/-- A pandas cell value: a string, an integer, or missing (`NaN`). -/
inductive Val
  | str (s : String)
  | intv (n : Int)
  | nan
deriving DecidableEq, Repr

/-- Python `==` on cell values: `NaN` is unequal to everything, itself
included; values of different types are unequal. -/
def pyEq : Val → Val → Bool
  | Val.str a, Val.str b => a = b
  | Val.intv a, Val.intv b => a = b
  | _, _ => false

/-- Python `!=` on cell values, as used for `title != prev_title`. -/
def pyNe (a b : Val) : Bool := !(pyEq a b)

/-- A DataFrame: ordered column names and rows of positionally aligned
values. -/
structure Table where
  cols : List String
  rows : List (List Val)
deriving DecidableEq, Repr

/-- Position of a column label, first occurrence; `none` models a pandas
`KeyError` lookup miss. -/
def colIdx? (c : String) : List String → Option Nat
  | [] => none
  | d :: ds => if d = c then some 0 else (colIdx? c ds).map (· + 1)

/-- Cell of a row under a column label (`row['TITLE']`); `none` models a
`KeyError`. -/
def cellOf? (cols : List String) (r : List Val) (c : String) : Option Val :=
  (colIdx? c cols).bind fun i => r.get? i

/-- The TITLE cell of a row, defaulting to `NaN`; used only to state
properties, the executable path goes through `cellOf?`. -/
def titleD (cols : List String) (r : List Val) : Val :=
  (cellOf? cols r "TITLE").getD Val.nan

/-- Python `cty_order_list.index(row['CTY'])`: first position of the value in
the priority list, `none` when the lookup raises `ValueError` (value absent,
or not a string at all, e.g. `NaN`). -/
def lookupCty (ctyList : List String) : Val → Option Nat
  | Val.str s => colIdx? s ctyList
  | _ => none

/-- The sentinel the source writes on a failed country lookup: the except
branch assigns the empty string `sort_cty = ''`. -/
def sortCtyVal : Option Nat → Val
  | some n => Val.intv n
  | none => Val.str ""

/-- Decimal digit parser used to model `astype('int')` on string cells. -/
def parseDigits : Nat → List Char → Option Nat
  | acc, [] => some acc
  | acc, c :: cs =>
    if 48 ≤ c.toNat ∧ c.toNat ≤ 57 then parseDigits (acc * 10 + (c.toNat - 48)) cs
    else none

/-- Conversion of one cell by `astype('int')`: ints pass through, strings
must be (non-empty) decimal literals — Python `int('')` raises `ValueError`
— and `NaN` cannot be cast to int. -/
def valToInt : Val → Option Int
  | Val.intv n => some n
  | Val.str s =>
    match s.data with
    | [] => none
    | cs => (parseDigits 0 cs).map fun n => (n : Int)
  | Val.nan => none

/-- `astype('int')` applied to the cell of one row at column position
`idx`. -/
def astypeRow (idx : Nat) (r : List Val) : Option (List Val) :=
  match r.get? idx with
  | none => none
  | some v => (valToInt v).map fun n => r.set idx (Val.intv n)

/-- `df[c] = df[c].astype('int')` for the column at position `idx`: every
row's cell must convert, otherwise the whole cast raises `ValueError`. -/
def astypeCol (idx : Nat) : List (List Val) → Option (List (List Val))
  | [] => some []
  | r :: rs =>
    match astypeRow idx r, astypeCol idx rs with
    | some r2, some rs2 => some (r2 :: rs2)
    | _, _ => none

/-- `df.at[index, c] = v` when the column already exists in `cols`
(positional overwrite). -/
def setCell (cols : List String) (r : List Val) (c : String) (v : Val) : List Val :=
  match colIdx? c cols with
  | some i => r.set i v
  | none => r

/-- Column creation effect of the first `df.at[index, c] = v` on a missing
column: the label is appended at the end of the column order. -/
def addCol (cols : List String) (c : String) : List String :=
  if c ∈ cols then cols else cols ++ [c]

/-- Rows are padded with `NaN` to the widened column set, as pandas fills a
freshly created column with `NaN` before the per-row assignments. -/
def padTo (n : Nat) (r : List Val) : List Val :=
  r ++ List.replicate (n - r.length) Val.nan

/-- The per-row walk of `list_sorter`: threading the previous TITLE and the
running `sort_index` through the table, producing for each row its
`(sort_index, sort_cty lookup result)`.  The first row compares against the
initial sentinel `prev_title = ''`.  Reading a missing TITLE or CTY column
raises `KeyError` (only `ValueError` is caught by the source). -/
def walkFrom (ctyList : List String) (cols : List String) :
    Val → Int → List (List Val) → Except String (List (Int × Option Nat))
  | _, _, [] => Except.ok []
  | prev, si, r :: rs =>
    match cellOf? cols r "TITLE" with
    | none => Except.error "KeyError: TITLE"
    | some title =>
      let si2 := if pyNe title prev then si + 1 else si
      match cellOf? cols r "CTY" with
      | none => Except.error "KeyError: CTY"
      | some c =>
        match walkFrom ctyList cols title si2 rs with
        | Except.error e => Except.error e
        | Except.ok rest => Except.ok ((si2, lookupCty ctyList c) :: rest)

/-- Sort key of a row: the values of the `SORT_INDEX` and `SORT_CTY`
columns, which are integer cells once `astype('int')` has run. -/
def keyOf (cols : List String) (r : List Val) : Int × Int :=
  (((cellOf? cols r "SORT_INDEX").bind valToInt).getD 0,
   ((cellOf? cols r "SORT_CTY").bind valToInt).getD 0)

/-- A row tagged with its sort key and its original position. -/
def Elt : Type := (Int × Int) × Nat × List Val

/-- Ordering used to model the stable multi-column
`sort_values(by=['SORT_INDEX', 'SORT_CTY'])`: lexicographic on the key, with
the original position as the final tiebreaker (which is exactly what
stability of `numpy.lexsort` guarantees). -/
def sortRel (a b : Elt) : Prop :=
  a.1.1 < b.1.1 ∨ (a.1.1 = b.1.1 ∧ (a.1.2 < b.1.2 ∨ (a.1.2 = b.1.2 ∧ a.2.1 ≤ b.2.1)))

instance : DecidableRel sortRel := fun a b => by unfold sortRel; infer_instance

instance : IsTotal Elt sortRel :=
  ⟨by intro a b; unfold sortRel; omega⟩

instance : IsTrans Elt sortRel :=
  ⟨by intro a b c; unfold sortRel; omega⟩

/-- Strict comparison of the original positions of two tagged rows. -/
def idxLt (a b : Elt) : Prop := a.2.1 < b.2.1

instance : IsAntisymm Elt idxLt :=
  ⟨by intro a b h1 h2; exact absurd (lt_trans h1 h2) (lt_irrefl _)⟩

/-- Tag each row with its sort key and its position, starting at `n`. -/
def tagFrom (cols : List String) (n : Nat) : List (List Val) → List Elt
  | [] => []
  | r :: rs => (keyOf cols r, n, r) :: tagFrom cols (n + 1) rs

/-- The stable sort phase of `list_sorter`
(`df.sort_values(by=['SORT_INDEX', 'SORT_CTY'])`). -/
def sortRows (cols : List String) (rows : List (List Val)) : List (List Val) :=
  (List.insertionSort sortRel (tagFrom cols 0 rows)).map fun e => e.2.2

/-- Shallow embedding of `list_sorter` (src/singlesorter.py).  Walks the
table assigning `SORT_INDEX`/`SORT_CTY`, casts both derived columns to int,
sorts stably by them, and writes out the sorted rows restricted to
`list(df.columns)[:-2]` — all columns but the last two. -/
def list_sorter (ctyList : List String) (t : Table) : Except String Table :=
  match walkFrom ctyList t.cols (Val.str "") 0 t.rows with
  | Except.error e => Except.error e
  | Except.ok ranks =>
    let cols2 := if t.rows.isEmpty then t.cols
                 else addCol (addCol t.cols "SORT_INDEX") "SORT_CTY"
    let rows2 := (t.rows.zip ranks).map fun p =>
        setCell cols2 (setCell cols2 (padTo cols2.length p.1) "SORT_INDEX" (Val.intv p.2.1))
          "SORT_CTY" (sortCtyVal p.2.2)
    match colIdx? "SORT_INDEX" cols2 with
    | none => Except.error "KeyError: SORT_INDEX"
    | some iSI =>
      match astypeCol iSI rows2 with
      | none => Except.error "ValueError: SORT_INDEX"
      | some rows3 =>
        match colIdx? "SORT_CTY" cols2 with
        | none => Except.error "KeyError: SORT_CTY"
        | some iSC =>
          match astypeCol iSC rows3 with
          | none => Except.error "ValueError: SORT_CTY"
          | some rows4 =>
            let m := cols2.length - 2
            Except.ok ⟨cols2.take m, (sortRows cols2 rows4).map (List.take m)⟩

/-- The ordered country list `CTY_ORDER` from src/singlesorter.py. -/
def CTY_ORDER : List String :=
  ["UK", "AU", "BEL", "CRO", "CZ", "DEN", "FI", "FRA", "GER", "GR", "IRE",
   "IS", "ITA", "NL", "NOR", "POL", "POR", "SCA", "SPA", "SWE", "SWI", "RUS",
   "TUR", "YUG", "USA", "CAN", "ARG", "BRA", "CHI", "COL", "CR", "GUA",
   "MEX", "PAR", "PER", "SV", "VEN", "JAP", "IND", "HK", "KOR", "MAL",
   "PHI", "SEA", "SIN", "TAI", "THA", "ISR", "AUS", "NZ", "SA", "ANG",
   "RHO", "ZIM", "EU"]

/-- Reference ranks of the walk, on total (defaulted) TITLE reads; used to
state the properties of `walkFrom` once the fallible reads are known to
succeed. -/
def specRanksD (cols : List String) : Val → Int → List (List Val) → List Int
  | _, _, [] => []
  | prev, si, r :: rs =>
    let si2 := if pyNe (titleD cols r) prev then si + 1 else si
    si2 :: specRanksD cols (titleD cols r) si2 rs

/-- Number of boundaries: adjacent row pairs whose TITLEs differ under the
program's `!=` (so `NaN` always opens a boundary). -/
def boundaries (cols : List String) : Val → List (List Val) → Nat
  | _, [] => 0
  | prev, r :: rs =>
    (if pyNe (titleD cols r) prev then 1 else 0) + boundaries cols (titleD cols r) rs

/-- Number of maximal runs of adjacent rows with equal TITLE, equality as the
program computes it (`NaN` never equal, so each `NaN` row is its own run). -/
def runCount (cols : List String) : List (List Val) → Nat
  | [] => 0
  | r :: rs => 1 + boundaries cols (titleD cols r) rs

/-- Code-point comparison of strings, one char-list step at a time; models
Python's lexicographic string `<` (used by pandas when sorting an object
column of strings). -/
def clLt : List Char → List Char → Bool
  | [], [] => false
  | [], _ :: _ => true
  | _ :: _, [] => false
  | a :: as, b :: bs =>
    if a.toNat < b.toNat then true
    else if b.toNat < a.toNat then false
    else clLt as bs

/-- Python string `<`. -/
def strLtB (a b : String) : Bool := clLt a.data b.data

/-- Python string `<=` (total, via `not (b < a)`). -/
def strLeB (a b : String) : Bool := !(strLtB b a)

/-- One entry of the scraped directory listing after
`pd.read_html(url, extract_links='body')`: the link target of the `Name`
cell (`none` when the cell is `NaN` or carries no link — both are filtered
out by the source's `notna` filters) and the raw text of the
`Last modified` cell. -/
structure ListingRow where
  nameLink : Option String
  lastModified : String
deriving DecidableEq, Repr

/-- Boolean substring containment: some tail of `s` starts with `pat`. -/
def containsSub (s pat : String) : Bool :=
  s.data.tails.any fun t => pat.data.isPrefixOf t

/-- The `(Name, Last modified)` pairs that survive the `notna` filters and
the name filter.  The source's `df['Name'].str.contains(pat)` treats `pat`
as a regular expression; for the literal, metacharacter-free patterns used
by this program (e.g. `'bowielist'`) that is plain substring containment,
which is what is modelled here. -/
def matching_entries (rows : List ListingRow) (pat : String) : List (String × String) :=
  (rows.filterMap fun r => r.nameLink.map fun n => (n, r.lastModified)).filter
    fun e => containsSub e.1 pat

/-- Helper for `splitOnChar`: accumulates the current segment (reversed). -/
def splitOnCharAux (sep : Char) : List Char → List Char → List (List Char)
  | cur, [] => [cur.reverse]
  | cur, c :: cs =>
    if c = sep then cur.reverse :: splitOnCharAux sep [] cs
    else splitOnCharAux sep (c :: cur) cs

/-- Python `s.split(sep)` for a one-character separator. -/
def splitOnChar (sep : Char) (s : String) : List String :=
  (splitOnCharAux sep [] s.data).map String.mk

/-- Relation that sorts listing entries by their raw `Last modified` string,
descending (`sort_values(by='Last modified', ascending=False)` on an object
column of strings compares the raw strings).  Ties between equal strings are
placed in an order the source does not guarantee (its single-column sort is
an unstable quicksort), so no theorem below depends on the order of ties. -/
def lmGe (a b : String × String) : Prop := strLeB b.2 a.2 = true

instance : DecidableRel lmGe := fun a b => by unfold lmGe; infer_instance

/-- Month token positions used by `dateutil` on listing dates such as
`9-Feb-2023`. -/
def monthNames : List String :=
  ["Jan", "Feb", "Mar", "Apr", "May", "Jun",
   "Jul", "Aug", "Sep", "Oct", "Nov", "Dec"]

/-- Numeric timestamp of a `D-Mon-YYYY` listing date, monotone in
chronological order (year, then month, then day); models the `dateutil`
parse of the directory-index format used by the listing, `none` when the
text does not parse. -/
def parseListingDate (s : String) : Option Int :=
  match splitOnChar '-' s with
  | [d, m, y] =>
    match parseDigits 0 d.data, colIdx? m monthNames, parseDigits 0 y.data, d.data, y.data with
    | some dn, some mi, some yn, _ :: _, _ :: _ =>
      some ((yn : Int) * 10000 + ((mi : Int) + 1) * 100 + (dn : Int))
    | _, _, _, _, _ => none
  | _ => none

/-- The current item as found online (`CurrentItem` in src/to_sheets.py);
timestamps are modelled as integers ordered like datetimes. -/
structure CurrentItem where
  url : String
  last_modified : Int
  filename : String
deriving DecidableEq, Repr

/-- Constructor matching `CurrentItem.__post_init__`: the filename is the
final `/`-separated segment of the URL. -/
def mkCurrentItem (url : String) (lm : Int) : CurrentItem :=
  ⟨url, lm, (splitOnChar '/' url).getLastD ""⟩

/-- The item as found on Google Drive (`GoogleDriveItem`): `id = none`
models the no-prior-upload sentinel. -/
structure GoogleDriveItem where
  id : Option String
  last_modified : Int
  filename : String
deriving DecidableEq, Repr

/-- Shallow embedding of `get_current_item` (src/to_sheets.py): filter the
listing to rows with a present `Name`, keep the names matching the filter,
sort descending by the raw `Last modified` text, take the first row
(`IndexError` if none), parse its date and build the `CurrentItem` whose URL
is the base URL with the name appended. -/
def get_current_item (baseUrl : String) (rows : List ListingRow) (pat : String) :
    Except String CurrentItem :=
  match List.insertionSort lmGe (matching_entries rows pat) with
  | [] => Except.error "IndexError"
  | e :: _ =>
    match parseListingDate e.2 with
    | none => Except.error "dateutil: unparseable date"
    | some ts => Except.ok (mkCurrentItem (baseUrl ++ e.1) ts)

/-- Observable external calls of one sync run. -/
inductive Ev
  | download
  | uploadUpdate (id : String)
  | uploadCreate (title : String)
  | deleteTemp
deriving DecidableEq, Repr

/-- Local observable state threaded through a run: the calls made so far and
whether the local staging file currently exists. -/
structure FS where
  events : List Ev
  staging : Bool
deriving DecidableEq, Repr

/-- The `ListUpdater` dataclass (the authenticated drive handle is implicit
in the upload success flag). -/
structure ListUpdater where
  google_drive_item : GoogleDriveItem
  current_item : CurrentItem
deriving DecidableEq, Repr

/-- `ListUpdater._is_list_newer`: strict comparison, ties are not newer. -/
def ListUpdater.is_list_newer (lu : ListUpdater) : Bool :=
  lu.google_drive_item.last_modified < lu.current_item.last_modified

/-- `ListUpdater._download_list`: one HTTP GET; on success the staging file
is written, on failure the exception propagates and no file is created. -/
def ListUpdater.download_list (lu : ListUpdater) (ok : Bool) (s : FS) :
    FS × Except String Unit :=
  if ok then (⟨s.events ++ [Ev.download], true⟩, Except.ok ())
  else (⟨s.events ++ [Ev.download], s.staging⟩, Except.error "requests: download failed")

/-- `ListUpdater._upload_file`: overwrite in place when a prior drive id
exists, otherwise create a new object under the drive item's filename; on
failure the exception propagates. -/
def ListUpdater.upload_file (lu : ListUpdater) (ok : Bool) (s : FS) :
    FS × Except String Unit :=
  let ev := match lu.google_drive_item.id with
    | some i => Ev.uploadUpdate i
    | none => Ev.uploadCreate lu.google_drive_item.filename
  if ok then (⟨s.events ++ [ev], s.staging⟩, Except.ok ())
  else (⟨s.events ++ [ev], s.staging⟩, Except.error "pydrive: upload failed")

/-- `ListUpdater._delete_temp_xlsx`: remove the staging file. -/
def ListUpdater.delete_temp_xlsx (lu : ListUpdater) (s : FS) :
    FS × Except String Unit :=
  (⟨s.events ++ [Ev.deleteTemp], false⟩, Except.ok ())

/-- Shallow embedding of `ListUpdater.run`: no-op unless the current item is
strictly newer; otherwise download, upload, delete the staging file, in that
order, each step aborting the rest on failure (the source has no
try/finally). -/
def ListUpdater.run (lu : ListUpdater) (downloadOk uploadOk : Bool) (s : FS) :
    FS × Except String Unit :=
  if !lu.is_list_newer then (s, Except.ok ())
  else
    match lu.download_list downloadOk s with
    | (s1, Except.error e) => (s1, Except.error e)
    | (s1, Except.ok ()) =>
      match lu.upload_file uploadOk s1 with
      | (s2, Except.error e) => (s2, Except.error e)
      | (s2, Except.ok ()) => lu.delete_temp_xlsx s2

/-! ## Basic lemmas about column lookup -/

theorem colIdx?_eq_none (c : String) (l : List String) (h : c ∉ l) :
    colIdx? c l = none := by
  induction l with
  | nil => rfl
  | cons d ds ih =>
    simp only [List.mem_cons, not_or] at h
    simp [colIdx?, Ne.symm h.1, ih h.2]

theorem colIdx?_append_self (c : String) (l l2 : List String) (h : c ∉ l) :
    colIdx? c (l ++ c :: l2) = some l.length := by
  induction l with
  | nil => simp [colIdx?]
  | cons d ds ih =>
    simp only [List.mem_cons, not_or] at h
    simp [colIdx?, Ne.symm h.1, ih h.2]

/-! ## Sync Decision Engine: C4, C7, C2 -/

/-- C4: whenever `current.last_modified <= stored.last_modified` the run is a
no-op — the strict `>` comparison means equal timestamps do not trigger a
transfer, no download or upload call happens, and the observable state is
returned unchanged (so repeated runs against an unchanged source each
no-op). -/
theorem run_noop_of_not_newer (lu : ListUpdater) (dOk uOk : Bool) (s : FS)
    (h : lu.current_item.last_modified ≤ lu.google_drive_item.last_modified) :
    lu.run dOk uOk s = (s, Except.ok ()) := by
  have hn : lu.is_list_newer = false := by
    simp only [ListUpdater.is_list_newer, decide_eq_false_iff_not]
    omega
  simp [ListUpdater.run, hn]

/-- Witness for C4 at equal timestamps. -/
theorem run_noop_of_not_newer_w :
    ListUpdater.run ⟨⟨some "id1", 20, "bowielist"⟩, mkCurrentItem "http://x/f.xlsx" 20⟩
      true true ⟨[], false⟩ = (⟨[], false⟩, Except.ok ()) :=
  run_noop_of_not_newer _ true true _ (by decide)

/-- C7: if the download step fails, the run aborts with the download as its
only external call — the upload step is never attempted, so no remote state
is touched, and no staging file is left. -/
theorem run_download_failure_aborts (lu : ListUpdater) (uOk : Bool)
    (h : lu.google_drive_item.last_modified < lu.current_item.last_modified) :
    lu.run false uOk ⟨[], false⟩ =
      (⟨[Ev.download], false⟩, Except.error "requests: download failed") ∧
    (∀ i, Ev.uploadUpdate i ∉ [Ev.download]) ∧
    (∀ n, Ev.uploadCreate n ∉ [Ev.download]) := by
  have hn : lu.is_list_newer = true := by
    simp only [ListUpdater.is_list_newer, decide_eq_true_eq]
    omega
  refine ⟨?_, by simp, by simp⟩
  simp [ListUpdater.run, hn, ListUpdater.download_list]

/-- Witness for C7. -/
theorem run_download_failure_aborts_w :
    ListUpdater.run ⟨⟨some "id1", 10, "bowielist"⟩, mkCurrentItem "http://x/f.xlsx" 20⟩
      false true ⟨[], false⟩ =
      (⟨[Ev.download], false⟩, Except.error "requests: download failed") :=
  (run_download_failure_aborts _ true (by decide)).1

/-- C2 counterexample: a run whose upload step fails leaves the staging file
in place and never issues the delete call — cleanup is not guaranteed on
upload failure. -/
theorem run_upload_failure_keeps_staging_cex :
    ListUpdater.run ⟨⟨some "id1", 10, "bowielist"⟩, mkCurrentItem "http://x/f.xlsx" 20⟩
      true false ⟨[], false⟩ =
      (⟨[Ev.download, Ev.uploadUpdate "id1"], true⟩, Except.error "pydrive: upload failed") ∧
    Ev.deleteTemp ∉ [Ev.download, Ev.uploadUpdate "id1"] := by
  refine ⟨by rfl, by decide⟩

/-- C2 amended: once the transfer state is reached and the staging file is
created, the staging file is removed when the upload succeeds, but when the
upload fails the run aborts with the staging file still present (the source
sequences `_delete_temp_xlsx` after `_upload_file` with no try/finally). -/
theorem run_cleanup_behaviour (lu : ListUpdater)
    (h : lu.google_drive_item.last_modified < lu.current_item.last_modified) :
    ((lu.run true true ⟨[], false⟩).1.staging = false ∧
      Ev.deleteTemp ∈ (lu.run true true ⟨[], false⟩).1.events) ∧
    ((lu.run true false ⟨[], false⟩).1.staging = true ∧
      Ev.deleteTemp ∉ (lu.run true false ⟨[], false⟩).1.events) := by
  have hn : lu.is_list_newer = true := by
    simp only [ListUpdater.is_list_newer, decide_eq_true_eq]
    omega
  cases hid : lu.google_drive_item.id with
  | none =>
    simp [ListUpdater.run, hn, ListUpdater.download_list, ListUpdater.upload_file,
      ListUpdater.delete_temp_xlsx, hid]
  | some i =>
    simp [ListUpdater.run, hn, ListUpdater.download_list, ListUpdater.upload_file,
      ListUpdater.delete_temp_xlsx, hid]

/-- Witness for the amended C2. -/
theorem run_cleanup_behaviour_w :
    ((ListUpdater.run ⟨⟨some "id1", 10, "bowielist"⟩, mkCurrentItem "http://x/f.xlsx" 20⟩
        true true ⟨[], false⟩).1.staging = false ∧
      Ev.deleteTemp ∈ (ListUpdater.run ⟨⟨some "id1", 10, "bowielist"⟩,
        mkCurrentItem "http://x/f.xlsx" 20⟩ true true ⟨[], false⟩).1.events) ∧
    ((ListUpdater.run ⟨⟨some "id1", 10, "bowielist"⟩, mkCurrentItem "http://x/f.xlsx" 20⟩
        true false ⟨[], false⟩).1.staging = true ∧
      Ev.deleteTemp ∉ (ListUpdater.run ⟨⟨some "id1", 10, "bowielist"⟩,
        mkCurrentItem "http://x/f.xlsx" 20⟩ true false ⟨[], false⟩).1.events) :=
  run_cleanup_behaviour _ (by decide)

/-! ## Grouped Sort Engine: C1 and C8 -/

/-- C1: a row whose CTY value is absent from the priority list does not get
the claimed worst-case secondary rank; the except branch stores the string
sentinel `''` and the later `astype('int')` on the `SORT_CTY` column raises
`ValueError`, aborting the whole run for the sheet. -/
theorem missing_cty_aborts_run :
    list_sorter CTY_ORDER ⟨["TITLE", "CTY"], [[Val.str "Heroes", Val.str "ZZ"]]⟩ =
      Except.error "ValueError: SORT_CTY" := rfl

/-- C8 counterexample: sorting the empty table does not return an empty
table; the row loop never runs, the `SORT_INDEX` column is never created,
and `df['SORT_INDEX']` raises `KeyError`. -/
theorem empty_table_errors_cex :
    list_sorter CTY_ORDER ⟨["TITLE", "CTY"], []⟩ = Except.error "KeyError: SORT_INDEX" ∧
    list_sorter CTY_ORDER ⟨["TITLE", "CTY"], []⟩ ≠
      Except.ok ⟨["TITLE", "CTY"], []⟩ := by
  have h1 : list_sorter CTY_ORDER ⟨["TITLE", "CTY"], []⟩ =
      Except.error "KeyError: SORT_INDEX" := rfl
  exact ⟨h1, by rw [h1]; exact fun hc => Except.noConfusion hc⟩

/-- Helper: with no rows, the walk never creates the `SORT_INDEX` column,
so the cast step fails with a `KeyError`. -/
theorem list_sorter_nil (ctyList : List String) (cols : List String)
    (h : "SORT_INDEX" ∉ cols) :
    list_sorter ctyList ⟨cols, []⟩ = Except.error "KeyError: SORT_INDEX" := by
  simp [list_sorter, walkFrom, colIdx?_eq_none _ _ h]

/-- C8 amended: on an empty table (with the derived `SORT_INDEX` column not
already among the input columns) the run aborts with a `KeyError` instead of
writing an empty output. -/
theorem empty_table_raises (ctyList : List String) (cols : List String)
    (h : "SORT_INDEX" ∉ cols) :
    list_sorter ctyList ⟨cols, []⟩ = Except.error "KeyError: SORT_INDEX" :=
  list_sorter_nil ctyList cols h

/-- Witness for the amended C8. -/
theorem empty_table_raises_w :
    list_sorter ["UK"] ⟨["TITLE", "CTY"], []⟩ = Except.error "KeyError: SORT_INDEX" :=
  empty_table_raises ["UK"] ["TITLE", "CTY"] (by decide)

/-! ## The rank walk: lemmas for C5 and C10 -/

theorem walkFrom_map_fst (ctyList cols : List String) :
    ∀ (rows : List (List Val)) (prev : Val) (si : Int) ranks,
      walkFrom ctyList cols prev si rows = Except.ok ranks →
      ranks.map Prod.fst = specRanksD cols prev si rows := by
  intro rows
  induction rows with
  | nil =>
    intro prev si ranks h
    simp only [walkFrom] at h
    cases h
    rfl
  | cons r rs ih =>
    intro prev si ranks h
    simp only [walkFrom] at h
    cases ht : cellOf? cols r "TITLE" with
    | none => rw [ht] at h; cases h
    | some title =>
      rw [ht] at h
      cases hc : cellOf? cols r "CTY" with
      | none => simp [hc] at h
      | some c =>
        rw [hc] at h
        cases hrec : walkFrom ctyList cols title (if pyNe title prev then si + 1 else si) rs with
        | error e => simp [hrec] at h
        | ok rest =>
          simp only [hrec] at h
          cases h
          have hT : titleD cols r = title := by simp [titleD, ht]
          simp only [List.map_cons, specRanksD, hT]
          rw [ih title (if pyNe title prev then si + 1 else si) rest hrec]

theorem walkFrom_length (ctyList cols : List String) :
    ∀ (rows : List (List Val)) (prev : Val) (si : Int) ranks,
      walkFrom ctyList cols prev si rows = Except.ok ranks →
      ranks.length = rows.length := by
  intro rows
  induction rows with
  | nil =>
    intro prev si ranks h
    simp only [walkFrom] at h
    cases h
    rfl
  | cons r rs ih =>
    intro prev si ranks h
    simp only [walkFrom] at h
    cases ht : cellOf? cols r "TITLE" with
    | none => rw [ht] at h; cases h
    | some title =>
      rw [ht] at h
      cases hc : cellOf? cols r "CTY" with
      | none => simp [hc] at h
      | some c =>
        rw [hc] at h
        cases hrec : walkFrom ctyList cols title (if pyNe title prev then si + 1 else si) rs with
        | error e => simp [hrec] at h
        | ok rest =>
          simp only [hrec] at h
          cases h
          simp [ih title _ rest hrec]

theorem specRanksD_ge (cols : List String) :
    ∀ (rows : List (List Val)) (prev : Val) (si : Int) x,
      x ∈ specRanksD cols prev si rows → si ≤ x := by
  intro rows
  induction rows with
  | nil => intro prev si x hx; simp [specRanksD] at hx
  | cons r rs ih =>
    intro prev si x hx
    simp only [specRanksD, List.mem_cons] at hx
    rcases hx with h | h
    · subst h; split <;> omega
    · have := ih (titleD cols r) (if pyNe (titleD cols r) prev then si + 1 else si) x h
      split at this <;> omega

theorem specRanksD_length (cols : List String) :
    ∀ (rows : List (List Val)) (prev : Val) (si : Int),
      (specRanksD cols prev si rows).length = rows.length := by
  intro rows
  induction rows with
  | nil => intro prev si; rfl
  | cons r rs ih => intro prev si; simp [specRanksD, ih]

theorem specRanksD_get?_step (cols : List String) :
    ∀ (rows : List (List Val)) (prev : Val) (si : Int) (i : Nat) ri rj,
      rows.get? i = some ri → rows.get? (i + 1) = some rj →
      (specRanksD cols prev si rows).get? (i + 1) =
        ((specRanksD cols prev si rows).get? i).map
          (fun k => if pyNe (titleD cols rj) (titleD cols ri) then k + 1 else k) := by
  intro rows
  induction rows with
  | nil => intro prev si i ri rj hi hj; cases hi
  | cons r rs ih =>
    intro prev si i ri rj hi hj
    cases i with
    | zero =>
      cases rs with
      | nil => cases hj
      | cons r2 rs2 =>
        simp only [List.get?] at hi hj
        cases hi
        cases hj
        simp [specRanksD]
    | succ n =>
      simp only [List.get?] at hi hj
      simp only [specRanksD, List.get?]
      exact ih (titleD cols r) (if pyNe (titleD cols r) prev then si + 1 else si) n ri rj hi hj

theorem specRanksD_card (cols : List String) :
    ∀ (rows : List (List Val)) (prev : Val) (si : Int),
      (specRanksD cols prev si rows).toFinset.card = runCount cols rows := by
  intro rows
  induction rows with
  | nil => intro prev si; rfl
  | cons r rs ih =>
    intro prev si
    cases rs with
    | nil => simp [specRanksD, runCount, boundaries]
    | cons r2 rs2 =>
      have heq : specRanksD cols prev si (r :: r2 :: rs2) =
          (if pyNe (titleD cols r) prev then si + 1 else si) ::
            specRanksD cols (titleD cols r)
              (if pyNe (titleD cols r) prev then si + 1 else si) (r2 :: rs2) := rfl
      set si2 := if pyNe (titleD cols r) prev then si + 1 else si with hsi2
      have hsub := ih (titleD cols r) si2
      simp only [runCount] at hsub
      have hRC : runCount cols (r :: r2 :: rs2) =
          1 + ((if pyNe (titleD cols r2) (titleD cols r) then 1 else 0) +
            boundaries cols (titleD cols r2) rs2) := rfl
      have hsubeq : specRanksD cols (titleD cols r) si2 (r2 :: rs2) =
          (if pyNe (titleD cols r2) (titleD cols r) then si2 + 1 else si2) ::
            specRanksD cols (titleD cols r2)
              (if pyNe (titleD cols r2) (titleD cols r) then si2 + 1 else si2) rs2 := rfl
      rw [heq, hRC, List.toFinset_cons]
      by_cases hb : pyNe (titleD cols r2) (titleD cols r) = true
      · have hnotmem : si2 ∉ (specRanksD cols (titleD cols r) si2 (r2 :: rs2)).toFinset := by
          rw [List.mem_toFinset, hsubeq, hb, if_pos rfl]
          intro hmem
          rcases List.mem_cons.mp hmem with h | h
          · omega
          · have := specRanksD_ge cols rs2 (titleD cols r2) (si2 + 1) si2 h
            omega
        rw [Finset.card_insert_of_not_mem hnotmem, hsub, hb]
        simp
        omega
      · have hb2 : pyNe (titleD cols r2) (titleD cols r) = false := by
          simpa using hb
        have hmem : si2 ∈ (specRanksD cols (titleD cols r) si2 (r2 :: rs2)).toFinset := by
          rw [List.mem_toFinset, hsubeq, hb2]
          simp
        rw [Finset.insert_eq_self.mpr hmem, hsub, hb2]
        simp

/-- C5 counterexample: a table whose first row has the empty string as its
TITLE gets group rank 0, not 1 — the walk's `prev_title` sentinel for the
first row is itself `''`, so no increment happens. -/
theorem first_rank_zero_cex :
    walkFrom ["UK"] ["TITLE", "CTY"] (Val.str "") 0 [[Val.str "", Val.str "UK"]] =
      Except.ok [((0 : Int), some 0)] ∧ (0 : Int) ≠ 1 :=
  ⟨rfl, by decide⟩

/-- C5 (amended): when the walk completes, the first record's group rank is
1 unless its TITLE equals the empty-string sentinel (then 0); each later
record's group rank is the previous one plus 1 exactly when its TITLE
differs from the previous TITLE under the program's `!=` (missing values
always differ); and the number of distinct group ranks equals the number of
maximal runs of adjacent TITLE-equal rows, equality as the program computes
it. -/
theorem walk_rank_properties (ctyList cols : List String) (rows : List (List Val))
    (ranks : List (Int × Option Nat))
    (hok : walkFrom ctyList cols (Val.str "") 0 rows = Except.ok ranks) :
    (ranks.map Prod.fst).head? = (rows.head?).map
        (fun r => if pyNe (titleD cols r) (Val.str "") then (1 : Int) else 0) ∧
    (∀ i ri rj, rows.get? i = some ri → rows.get? (i + 1) = some rj →
      (ranks.map Prod.fst).get? (i + 1) = ((ranks.map Prod.fst).get? i).map
        (fun k => if pyNe (titleD cols rj) (titleD cols ri) then k + 1 else k)) ∧
    (ranks.map Prod.fst).toFinset.card = runCount cols rows := by
  have hm := walkFrom_map_fst ctyList cols rows (Val.str "") 0 ranks hok
  rw [hm]
  refine ⟨?_, ?_, specRanksD_card cols rows (Val.str "") 0⟩
  · cases rows with
    | nil => rfl
    | cons r rs => rfl
  · intro i ri rj hi hj
    exact specRanksD_get?_step cols rows (Val.str "") 0 i ri rj hi hj

/-- Witness for the amended C5: a two-group table where the distinct rank
count equals the run count. -/
theorem walk_rank_properties_w :
    (List.map Prod.fst [((1 : Int), some 0), ((2 : Int), some 1)]).toFinset.card =
      runCount ["TITLE", "CTY"]
        [[Val.str "A", Val.str "UK"], [Val.str "B", Val.str "USA"]] :=
  (walk_rank_properties ["UK", "USA"] ["TITLE", "CTY"]
    [[Val.str "A", Val.str "UK"], [Val.str "B", Val.str "USA"]]
    [((1 : Int), some 0), ((2 : Int), some 1)] rfl).2.2

/-- C10: two adjacent rows whose TITLE cells are both `NaN` always receive
different group ranks — the second is the first plus one, because the
program's `!=` on `NaN` never reports equality. -/
theorem nan_titles_split_groups (ctyList cols : List String) (rows : List (List Val))
    (ranks : List (Int × Option Nat)) (i : Nat) (ri rj : List Val)
    (hok : walkFrom ctyList cols (Val.str "") 0 rows = Except.ok ranks)
    (hi : rows.get? i = some ri) (hj : rows.get? (i + 1) = some rj)
    (hti : cellOf? cols ri "TITLE" = some Val.nan)
    (htj : cellOf? cols rj "TITLE" = some Val.nan) :
    ∃ k, (ranks.map Prod.fst).get? i = some k ∧
      (ranks.map Prod.fst).get? (i + 1) = some (k + 1) ∧ k + 1 ≠ k := by
  have hm := walkFrom_map_fst ctyList cols rows (Val.str "") 0 ranks hok
  rw [hm]
  have hstep := specRanksD_get?_step cols rows (Val.str "") 0 i ri rj hi hj
  have hTi : titleD cols ri = Val.nan := by simp [titleD, hti]
  have hTj : titleD cols rj = Val.nan := by simp [titleD, htj]
  rw [hTi, hTj] at hstep
  have hlen : (specRanksD cols (Val.str "") 0 rows).length = rows.length :=
    specRanksD_length cols rows (Val.str "") 0
  have hilt : i < rows.length := by
    by_contra hge
    rw [List.get?_eq_none.mpr (by omega)] at hi
    cases hi
  cases hk : (specRanksD cols (Val.str "") 0 rows).get? i with
  | none =>
    have := List.get?_eq_none.mp hk
    omega
  | some k =>
    refine ⟨k, rfl, ?_, by omega⟩
    rw [hstep, hk]
    simp [pyNe, pyEq]

/-- Witness for C10 on a concrete two-row table with missing titles. -/
theorem nan_titles_split_groups_w :
    ∃ k, (List.map Prod.fst [((1 : Int), some 0), ((2 : Int), some 0)]).get? 0 = some k ∧
      (List.map Prod.fst [((1 : Int), some 0), ((2 : Int), some 0)]).get? 1 = some (k + 1) ∧
      k + 1 ≠ k :=
  nan_titles_split_groups ["UK"] ["TITLE", "CTY"]
    [[Val.nan, Val.str "UK"], [Val.nan, Val.str "UK"]]
    [((1 : Int), some 0), ((2 : Int), some 0)] 0
    [Val.nan, Val.str "UK"] [Val.nan, Val.str "UK"] rfl rfl rfl rfl rfl

/-! ## Stability of the sort phase: lemmas for C3 and C9 -/

theorem tagFrom_map_row (cols : List String) :
    ∀ (rows : List (List Val)) (n : Nat),
      (tagFrom cols n rows).map (fun e => e.2.2) = rows := by
  intro rows
  induction rows with
  | nil => intro n; rfl
  | cons r rs ih => intro n; simp [tagFrom, ih]

theorem tagFrom_key (cols : List String) :
    ∀ (rows : List (List Val)) (n : Nat) (e : Elt),
      e ∈ tagFrom cols n rows → e.1 = keyOf cols e.2.2 := by
  intro rows
  induction rows with
  | nil => intro n e he; cases he
  | cons r rs ih =>
    intro n e he
    rcases List.mem_cons.mp he with h | h
    · subst h; rfl
    · exact ih (n + 1) e h

theorem tagFrom_idx_ge (cols : List String) :
    ∀ (rows : List (List Val)) (n : Nat) (e : Elt),
      e ∈ tagFrom cols n rows → n ≤ e.2.1 := by
  intro rows
  induction rows with
  | nil => intro n e he; cases he
  | cons r rs ih =>
    intro n e he
    rcases List.mem_cons.mp he with h | h
    · subst h; exact le_refl n
    · have := ih (n + 1) e h; omega

theorem tagFrom_idx_pairwise (cols : List String) :
    ∀ (rows : List (List Val)) (n : Nat),
      List.Pairwise idxLt (tagFrom cols n rows) := by
  intro rows
  induction rows with
  | nil => intro n; exact List.Pairwise.nil
  | cons r rs ih =>
    intro n
    refine List.Pairwise.cons ?_ (ih (n + 1))
    intro e he
    have h1 := tagFrom_idx_ge cols rs (n + 1) e he
    exact Nat.lt_of_lt_of_le (Nat.lt_succ_self n) h1

theorem sortRows_perm (cols : List String) (rows : List (List Val)) :
    List.Perm (sortRows cols rows) rows := by
  have h1 : List.Perm (sortRows cols rows) ((tagFrom cols 0 rows).map (fun e => e.2.2)) :=
    (List.perm_insertionSort sortRel (tagFrom cols 0 rows)).map _
  rwa [tagFrom_map_row cols rows 0] at h1

/-- C3: the sort phase is stable — for every key value, the rows carrying
that `(SORT_INDEX, SORT_CTY)` key appear in the sorted output in exactly
their original relative order (their filtered subsequence is unchanged). -/
theorem sortRows_stable (cols : List String) (rows : List (List Val)) (k : Int × Int) :
    (sortRows cols rows).filter (fun r => keyOf cols r == k) =
      rows.filter (fun r => keyOf cols r == k) := by
  classical
  set T := tagFrom cols 0 rows with hT
  set S := List.insertionSort sortRel T with hS
  have hperm : List.Perm S T := List.perm_insertionSort sortRel T
  set p : Elt → Bool := fun e => e.1 == k with hp
  set q : List Val → Bool := fun r => keyOf cols r == k with hq
  -- the stored key of a tagged row is the key of its row
  have hkey : ∀ e ∈ T, (q ∘ fun e : Elt => e.2.2) e = p e := by
    intro e he
    simp only [Function.comp, hp, hq]
    rw [tagFrom_key cols rows 0 e he]
  have hkeyS : ∀ e ∈ S, (q ∘ fun e : Elt => e.2.2) e = p e := fun e he =>
    hkey e (hperm.mem_iff.mp he)
  -- both filtered tagged lists are strictly sorted by original position
  have hsortedT : List.Pairwise idxLt (T.filter p) :=
    (tagFrom_idx_pairwise cols rows 0).filter p
  have hsortedS : List.Pairwise idxLt (S.filter p) := by
    have h1 : List.Pairwise sortRel (S.filter p) :=
      (List.sorted_insertionSort sortRel T).filter p
    have hneT : List.Pairwise (fun a b : Elt => a.2.1 ≠ b.2.1) T :=
      (tagFrom_idx_pairwise cols rows 0).imp fun h => Nat.ne_of_lt h
    have hneS : List.Pairwise (fun a b : Elt => a.2.1 ≠ b.2.1) S :=
      ((List.Perm.pairwise_iff (fun h => Ne.symm h) hperm).mpr hneT)
    have h2 : List.Pairwise (fun a b : Elt => a.2.1 ≠ b.2.1) (S.filter p) :=
      hneS.filter p
    refine (h1.and h2).imp_of_mem ?_
    intro a b ha hb hab
    have hak : a.1 = k := by
      have := (List.mem_filter.mp ha).2
      simpa [hp] using this
    have hbk : b.1 = k := by
      have := (List.mem_filter.mp hb).2
      simpa [hp] using this
    have h3 := hab.1
    unfold sortRel at h3
    unfold idxLt
    rw [hak, hbk] at h3
    rcases h3 with h | ⟨_, h | ⟨_, h⟩⟩
    · omega
    · omega
    · exact lt_of_le_of_ne h hab.2
  -- hence the two filtered tagged lists are equal
  have hfiltereq : S.filter p = T.filter p :=
    List.eq_of_perm_of_sorted (hperm.filter p) hsortedS hsortedT
  -- transport along the row projection
  calc (sortRows cols rows).filter q
      = ((S.map fun e => e.2.2).filter q) := rfl
    _ = (S.filter (q ∘ fun e : Elt => e.2.2)).map (fun e => e.2.2) := by
        rw [List.filter_map]
    _ = (S.filter p).map (fun e => e.2.2) := by
        rw [List.filter_congr hkeyS]
    _ = (T.filter p).map (fun e => e.2.2) := by rw [hfiltereq]
    _ = (T.filter (q ∘ fun e : Elt => e.2.2)).map (fun e => e.2.2) := by
        rw [List.filter_congr hkey]
    _ = (T.map fun e => e.2.2).filter q := by rw [List.filter_map]
    _ = rows.filter q := by rw [tagFrom_map_row cols rows 0]

/-! ## Frame effects of list_sorter: C9 -/

theorem set_of_length_le {α : Type} {l : List α} {i : Nat} (h : l.length ≤ i) (a : α) :
    l.set i a = l := by
  induction l generalizing i with
  | nil => rfl
  | cons x xs ih =>
    cases i with
    | zero => simp at h
    | succ n =>
      simp only [List.length_cons] at h
      simp only [List.set]
      exact congrArg (List.cons x) (ih (by omega))

theorem take_set_of_le {α : Type} {l : List α} {i n : Nat} (h : n ≤ i) (a : α) :
    (l.set i a).take n = l.take n := by
  rw [List.set_take]
  exact set_of_length_le (le_trans (by simp [List.length_take]) h) a

theorem astypeRow_take (n i : Nat) (r r2 : List Val) (h : n ≤ i)
    (ha : astypeRow i r = some r2) : r2.take n = r.take n := by
  cases hget : r[i]? with
  | none => simp [astypeRow, hget] at ha
  | some v =>
    cases hconv : valToInt v with
    | none => simp [astypeRow, hget, hconv] at ha
    | some m =>
      simp [astypeRow, hget, hconv] at ha
      rw [← ha]
      exact take_set_of_le h _

theorem astypeCol_map_take (n i : Nat) (h : n ≤ i) :
    ∀ (rows rows2 : List (List Val)), astypeCol i rows = some rows2 →
      rows2.map (List.take n) = rows.map (List.take n) := by
  intro rows
  induction rows with
  | nil =>
    intro rows2 ha
    cases ha
    rfl
  | cons r rs ih =>
    intro rows2 ha
    cases h1 : astypeRow i r with
    | none => simp [astypeCol, h1] at ha
    | some r2 =>
      cases h2 : astypeCol i rs with
      | none => simp [astypeCol, h1, h2] at ha
      | some rs2 =>
        simp [astypeCol, h1, h2] at ha
        rw [← ha]
        simp only [List.map_cons]
        rw [astypeRow_take n i r r2 h h1, ih rs2 h2]

theorem addCol_twice (cols : List String) (hSI : "SORT_INDEX" ∉ cols)
    (hSC : "SORT_CTY" ∉ cols) :
    addCol (addCol cols "SORT_INDEX") "SORT_CTY" = cols ++ ["SORT_INDEX", "SORT_CTY"] := by
  unfold addCol
  rw [if_neg hSI, if_neg (by simp [hSC]), List.append_assoc]
  rfl

theorem colIdx?_SI (cols : List String) (hSI : "SORT_INDEX" ∉ cols) :
    colIdx? "SORT_INDEX" (cols ++ ["SORT_INDEX", "SORT_CTY"]) = some cols.length :=
  colIdx?_append_self "SORT_INDEX" cols ["SORT_CTY"] hSI

theorem colIdx?_SC (cols : List String) (hSI : "SORT_INDEX" ∉ cols)
    (hSC : "SORT_CTY" ∉ cols) :
    colIdx? "SORT_CTY" (cols ++ ["SORT_INDEX", "SORT_CTY"]) = some (cols.length + 1) := by
  have h2 : "SORT_CTY" ∉ cols ++ ["SORT_INDEX"] := by simp [hSC]
  have h3 := colIdx?_append_self "SORT_CTY" (cols ++ ["SORT_INDEX"]) [] h2
  rw [List.append_assoc] at h3
  simpa using h3

theorem builtRow_take (cols : List String) (r : List Val) (v1 v2 : Val)
    (hSI : "SORT_INDEX" ∉ cols) (hSC : "SORT_CTY" ∉ cols) (hr : r.length = cols.length) :
    (setCell (cols ++ ["SORT_INDEX", "SORT_CTY"])
       (setCell (cols ++ ["SORT_INDEX", "SORT_CTY"])
         (padTo (cols ++ ["SORT_INDEX", "SORT_CTY"]).length r) "SORT_INDEX" v1)
       "SORT_CTY" v2).take cols.length = r := by
  have hpad : padTo (cols ++ ["SORT_INDEX", "SORT_CTY"]).length r = r ++ [Val.nan, Val.nan] := by
    unfold padTo
    have h1 : (cols ++ ["SORT_INDEX", "SORT_CTY"]).length - r.length = 2 := by
      simp [hr]
    rw [h1]
    rfl
  have hset1 : (r ++ [Val.nan, Val.nan]).set cols.length v1 = r ++ [v1, Val.nan] := by
    rw [List.set_append_right _ _ (by omega)]
    have h2 : cols.length - r.length = 0 := by omega
    rw [h2]
    rfl
  simp only [setCell, colIdx?_SI cols hSI, colIdx?_SC cols hSI hSC, hpad]
  rw [hset1, List.set_append_right _ _ (by omega)]
  have h3 : cols.length + 1 - r.length = 1 := by omega
  rw [h3]
  exact List.take_left' hr

/-- C9 counterexample: a table that already carries a payload column named
`SORT_INDEX` loses it entirely — the walk overwrites it in place, the new
`SORT_CTY` column lands at the end, and stripping `columns[:-2]` drops the
original payload column instead of only the derived ones. -/
theorem payload_column_lost_cex :
    list_sorter ["UK"]
        ⟨["TITLE", "CTY", "SORT_INDEX"], [[Val.str "A", Val.str "UK", Val.str "x"]]⟩ =
      Except.ok ⟨["TITLE", "CTY"], [[Val.str "A", Val.str "UK"]]⟩ ∧
    (["TITLE", "CTY"] : List String) ≠ ["TITLE", "CTY", "SORT_INDEX"] :=
  ⟨rfl, by decide⟩

/-- C9 (amended): provided the input table does not already use the reserved
derived column names `SORT_INDEX`/`SORT_CTY` (and its rows match its column
count), a successful sort returns exactly the original columns in their
original order, and its rows are a permutation of the original rows with all
payload carried through unchanged. -/
theorem list_sorter_frame (ctyList : List String) (t : Table) (out : Table)
    (hSI : "SORT_INDEX" ∉ t.cols) (hSC : "SORT_CTY" ∉ t.cols)
    (hrect : ∀ r ∈ t.rows, r.length = t.cols.length)
    (hok : list_sorter ctyList t = Except.ok out) :
    out.cols = t.cols ∧ List.Perm out.rows t.rows := by
  obtain ⟨cols, rows⟩ := t
  simp only at hSI hSC hrect
  cases hrows : rows with
  | nil =>
    subst hrows
    rw [list_sorter_nil ctyList cols hSI] at hok
    cases hok
  | cons r0 rs0 =>
    subst hrows
    cases hwalk : walkFrom ctyList cols (Val.str "") 0 (r0 :: rs0) with
    | error e =>
      unfold list_sorter at hok
      simp only at hok
      rw [hwalk] at hok
      cases hok
    | ok ranks =>
      have hlenranks : ranks.length = (r0 :: rs0).length :=
        walkFrom_length ctyList cols (r0 :: rs0) (Val.str "") 0 ranks hwalk
      unfold list_sorter at hok
      simp only at hok
      rw [hwalk] at hok
      simp only [List.isEmpty_cons, Bool.false_eq_true, if_false,
        addCol_twice cols hSI hSC, colIdx?_SI cols hSI, colIdx?_SC cols hSI hSC] at hok
      split at hok
      · cases hok
      · rename_i rows3 hA1
        split at hok
        · cases hok
        · rename_i rows4 hA2
          cases hok
          have hlen2 : (cols ++ ["SORT_INDEX", "SORT_CTY"]).length - 2 = cols.length := by
            simp
          constructor
          · simp only [hlen2]
            exact List.take_left' rfl
          · simp only [hlen2]
            have hperm1 : List.Perm
                ((sortRows (cols ++ ["SORT_INDEX", "SORT_CTY"]) rows4).map (List.take cols.length))
                (rows4.map (List.take cols.length)) :=
              (sortRows_perm (cols ++ ["SORT_INDEX", "SORT_CTY"]) rows4).map _
            have h4 : rows4.map (List.take cols.length) = rows3.map (List.take cols.length) :=
              astypeCol_map_take cols.length (cols.length + 1) (by omega) rows3 rows4 hA2
            have h3 : rows3.map (List.take cols.length) =
                (((r0 :: rs0).zip ranks).map fun p =>
                  setCell (cols ++ ["SORT_INDEX", "SORT_CTY"])
                    (setCell (cols ++ ["SORT_INDEX", "SORT_CTY"])
                      (padTo (cols ++ ["SORT_INDEX", "SORT_CTY"]).length p.1)
                      "SORT_INDEX" (Val.intv p.2.1))
                    "SORT_CTY" (sortCtyVal p.2.2)).map (List.take cols.length) :=
              astypeCol_map_take cols.length cols.length (le_refl _) _ rows3 hA1
            have h2 : (((r0 :: rs0).zip ranks).map fun p =>
                  setCell (cols ++ ["SORT_INDEX", "SORT_CTY"])
                    (setCell (cols ++ ["SORT_INDEX", "SORT_CTY"])
                      (padTo (cols ++ ["SORT_INDEX", "SORT_CTY"]).length p.1)
                      "SORT_INDEX" (Val.intv p.2.1))
                    "SORT_CTY" (sortCtyVal p.2.2)).map (List.take cols.length) =
                r0 :: rs0 := by
              rw [List.map_map]
              have hpt : ∀ p ∈ (r0 :: rs0).zip ranks,
                  (List.take cols.length ∘ fun p : List Val × (Int × Option Nat) =>
                    setCell (cols ++ ["SORT_INDEX", "SORT_CTY"])
                      (setCell (cols ++ ["SORT_INDEX", "SORT_CTY"])
                        (padTo (cols ++ ["SORT_INDEX", "SORT_CTY"]).length p.1)
                        "SORT_INDEX" (Val.intv p.2.1))
                      "SORT_CTY" (sortCtyVal p.2.2)) p = Prod.fst p := by
                intro p hp
                have hmem := (List.of_mem_zip hp).1
                exact builtRow_take cols p.1 _ _ hSI hSC (hrect p.1 hmem)
              rw [List.map_congr_left hpt]
              exact List.map_fst_zip (r0 :: rs0) ranks (by omega)
            rw [h4, h3, h2] at hperm1
            exact hperm1

/-- Witness for the amended C9 on a two-row table with a payload column. -/
theorem list_sorter_frame_w :
    (Table.mk ["TITLE", "CTY"]
        [[Val.str "A", Val.str "UK"], [Val.str "A", Val.str "USA"]]).cols =
      (Table.mk ["TITLE", "CTY"]
        [[Val.str "A", Val.str "USA"], [Val.str "A", Val.str "UK"]]).cols ∧
    List.Perm
      (Table.mk ["TITLE", "CTY"]
        [[Val.str "A", Val.str "UK"], [Val.str "A", Val.str "USA"]]).rows
      (Table.mk ["TITLE", "CTY"]
        [[Val.str "A", Val.str "USA"], [Val.str "A", Val.str "UK"]]).rows :=
  list_sorter_frame ["UK", "USA"]
    ⟨["TITLE", "CTY"], [[Val.str "A", Val.str "USA"], [Val.str "A", Val.str "UK"]]⟩
    ⟨["TITLE", "CTY"], [[Val.str "A", Val.str "UK"], [Val.str "A", Val.str "USA"]]⟩
    (by decide) (by decide) (by decide) rfl

/-! ## Remote Listing Resolver: C6 -/

theorem clLt_irrefl : ∀ x : List Char, clLt x x = false := by
  intro x
  induction x with
  | nil => rfl
  | cons a as ih => simp [clLt, ih]

theorem clLt_asymm : ∀ (x y : List Char), clLt x y = true → clLt y x = false := by
  intro x
  induction x with
  | nil =>
    intro y h
    cases y with
    | nil => simp [clLt] at h
    | cons b bs => rfl
  | cons a as ih =>
    intro y h
    cases y with
    | nil => simp [clLt] at h
    | cons b bs =>
      by_cases hab : a.toNat < b.toNat
      · have hba : ¬ b.toNat < a.toNat := by omega
        simp [clLt, hba, hab]
      · by_cases hba : b.toNat < a.toNat
        · simp [clLt, hab, hba] at h
        · have h2 : clLt as bs = true := by simpa [clLt, hab, hba] using h
          simp [clLt, hab, hba, ih bs h2]

theorem clLt_conn :
    ∀ (z x : List Char), clLt z x = true →
      ∀ y, clLt z y = true ∨ clLt y x = true := by
  intro z
  induction z with
  | nil =>
    intro x h y
    cases y with
    | nil => right; exact h
    | cons c cs => left; rfl
  | cons a as ih =>
    intro x h y
    cases x with
    | nil => simp [clLt] at h
    | cons b bs =>
      cases y with
      | nil => right; rfl
      | cons c cs =>
        by_cases hab : a.toNat < b.toNat
        · by_cases hac : a.toNat < c.toNat
          · left; simp [clLt, hac]
          · right
            have hcb : c.toNat < b.toNat := by omega
            simp [clLt, hcb]
        · by_cases hba : b.toNat < a.toNat
          · simp [clLt, hab, hba] at h
          · have h2 : clLt as bs = true := by simpa [clLt, hab, hba] using h
            by_cases hac : a.toNat < c.toNat
            · left; simp [clLt, hac]
            · by_cases hca : c.toNat < a.toNat
              · right
                have hcb : c.toNat < b.toNat := by omega
                simp [clLt, hcb]
              · rcases ih bs h2 cs with hl | hr
                · left
                  simp [clLt, hac, hca, hl]
                · right
                  have hcb1 : ¬ c.toNat < b.toNat := by omega
                  have hbc1 : ¬ b.toNat < c.toNat := by omega
                  simp [clLt, hcb1, hbc1, hr]

instance : IsTotal (String × String) lmGe :=
  ⟨by
    intro a b
    unfold lmGe strLeB strLtB
    by_cases h : clLt a.2.data b.2.data = true
    · right
      rw [clLt_asymm _ _ h]
      rfl
    · left
      simp [h]⟩

instance : IsTrans (String × String) lmGe :=
  ⟨by
    intro a b c h1 h2
    unfold lmGe strLeB strLtB at h1 h2 ⊢
    cases hval : clLt a.2.data c.2.data with
    | false => rfl
    | true =>
      exfalso
      rcases clLt_conn a.2.data c.2.data hval b.2.data with h | h
      · rw [h] at h1; simp at h1
      · rw [h] at h2; simp at h2⟩

/-- C6 counterexample: the resolver sorts by the raw `Last modified` text,
so a listing whose date strings are not in lexicographic-chronological
agreement makes it return an entry other than the one with the maximum
timestamp: `"9-Feb-2023"` sorts above `"10-Jan-2024"` although it is a year
older. -/
theorem resolver_not_max_timestamp_cex :
    get_current_item "http://x/"
        [⟨some "f1", "10-Jan-2024"⟩, ⟨some "f2", "9-Feb-2023"⟩] "f" =
      Except.ok ⟨"http://x/f2", 20230209, "f2"⟩ ∧
    parseListingDate "10-Jan-2024" = some 20240110 ∧
    (20230209 : Int) < 20240110 :=
  ⟨rfl, rfl, by decide⟩

/-- C6 (amended): among the entries that survive the name filter, the
resolver returns one whose raw `Last modified` string is greatest in
code-point order (every other matching entry's string compares `<=` to it);
this coincides with the maximum timestamp only when the listing's date
format makes string order agree with chronological order, and the choice
among entries with identical strings is not specified by the source. -/
theorem resolver_picks_lex_max (baseUrl : String) (rows : List ListingRow)
    (pat : String) (item : CurrentItem)
    (hok : get_current_item baseUrl rows pat = Except.ok item) :
    ∃ e, e ∈ matching_entries rows pat ∧ item.url = baseUrl ++ e.1 ∧
      parseListingDate e.2 = some item.last_modified ∧
      ∀ e2 ∈ matching_entries rows pat, strLeB e2.2 e.2 = true := by
  unfold get_current_item at hok
  cases hsort : List.insertionSort lmGe (matching_entries rows pat) with
  | nil =>
    simp only [hsort] at hok
    cases hok
  | cons e rest =>
    simp only [hsort] at hok
    cases hparse : parseListingDate e.2 with
    | none =>
      simp only [hparse] at hok
      cases hok
    | some ts =>
      simp only [hparse] at hok
      injection hok with hitem
      subst hitem
      refine ⟨e, ?_, rfl, hparse, ?_⟩
      · have hmem : e ∈ List.insertionSort lmGe (matching_entries rows pat) := by
          rw [hsort]
          exact List.mem_cons_self e rest
        simpa [List.mem_insertionSort] using hmem
      · intro e2 he2
        have hsorted : List.Sorted lmGe
            (List.insertionSort lmGe (matching_entries rows pat)) :=
          List.sorted_insertionSort lmGe _
        rw [hsort] at hsorted
        have hmem2 : e2 ∈ e :: rest := by
          have h5 : e2 ∈ List.insertionSort lmGe (matching_entries rows pat) := by
            simpa [List.mem_insertionSort] using he2
          rwa [hsort] at h5
        rcases List.mem_cons.mp hmem2 with heq | htail
        · subst heq
          simp [strLeB, strLtB, clLt_irrefl]
        · exact List.rel_of_sorted_cons hsorted e2 htail

/-- Witness for the amended C6 on a two-entry bowielist-style listing. -/
theorem resolver_picks_lex_max_w :
    ∃ e, e ∈ matching_entries
        [⟨some "bowielist_v1.xlsx", "12-Nov-2022"⟩,
         ⟨some "bowielist_v2.xlsx", "12-Nov-2023"⟩] "bowielist" ∧
      (CurrentItem.mk "http://x/bowielist_v2.xlsx" 20231112 "bowielist_v2.xlsx").url =
        "http://x/" ++ e.1 ∧
      parseListingDate e.2 =
        some (CurrentItem.mk "http://x/bowielist_v2.xlsx" 20231112
          "bowielist_v2.xlsx").last_modified ∧
      ∀ e2 ∈ matching_entries
          [⟨some "bowielist_v1.xlsx", "12-Nov-2022"⟩,
           ⟨some "bowielist_v2.xlsx", "12-Nov-2023"⟩] "bowielist",
        strLeB e2.2 e.2 = true :=
  resolver_picks_lex_max "http://x/"
    [⟨some "bowielist_v1.xlsx", "12-Nov-2022"⟩,
     ⟨some "bowielist_v2.xlsx", "12-Nov-2023"⟩] "bowielist"
    ⟨"http://x/bowielist_v2.xlsx", 20231112, "bowielist_v2.xlsx"⟩ rfl
